import Mathlib

/-!
# Verification of the Synacor-challenge virtual machine (src/src/lib.rs)

A shallow embedding of the Rust execution engine: the `Machine` struct,
operand value resolution, the decoder (`match_opcode`), the step function
(`tick`) and the program-image loader (`load`).

Conventions of the embedding:
* Machine words are `Nat`; Rust's `u16`/`u32`/`usize` wrapping casts are made
  explicit with `% 65536`, `% 4294967296`, `% 18446744073709551616`.
* A Rust `panic!` (explicit panic, out-of-bounds index, arithmetic overflow in
  checked builds, division by zero, `expect` on `None`/`Err`) is `none`;
  fallible operations return `Option`.
* The process's stdin/stdout streams used by the `In`/`Out` opcodes are carried
  in the state as the byte lists `input` and `output`.
* `Vec<u16>` becomes `List Nat`; the stack's top is the list head
  (`Vec::push`/`Vec::pop` act at the tail of the vector, i.e. the head here).
-/

/-- The opcode sum type, one constructor per Rust `OpCode` variant.
`None` is the variant produced for an opcode word outside 0..21. -/
inductive OpCode where
  | Halt
  | Set (a b : Nat)
  | Push (a : Nat)
  | Pop (a : Nat)
  | Eq (a b c : Nat)
  | Gt (a b c : Nat)
  | Jmp (a : Nat)
  | Jt (a b : Nat)
  | Jf (a b : Nat)
  | Add (a b c : Nat)
  | Mult (a b c : Nat)
  | Mod (a b c : Nat)
  | And (a b c : Nat)
  | Or (a b c : Nat)
  | Not (a b : Nat)
  | Rmem (a b : Nat)
  | Wmem (a b : Nat)
  | Call (a : Nat)
  | Ret
  | Out (a : Nat)
  | In (a : Nat)
  | Noop
  | None
deriving DecidableEq, Repr

/-- The machine state: `memory`, `registers`, `stack` and `pos` mirror the four
fields of the Rust `Machine` struct; `input` and `output` model the stdin byte
stream consumed by `In` and the stdout bytes emitted by `Out`. -/
structure Machine where
  memory : List Nat
  registers : List Nat
  stack : List Nat
  pos : Nat
  input : List Nat
  output : List Nat
deriving DecidableEq, Repr

/-- `Machine::new`: memory `vec![0; 32768]`, registers `vec![0; 8]`, empty
stack, position 0 (stdin/stdout streams start empty). -/
def Machine.new : Machine :=
  { memory := List.replicate 32768 0
    registers := List.replicate 8 0
    stack := []
    pos := 0
    input := []
    output := [] }

/-- `impl Default for Machine`: as written in the source it builds the
two-element vectors `vec![0, 32768]` and `vec![0, 8]` (comma, not semicolon). -/
def Machine.default : Machine :=
  { memory := [0, 32768]
    registers := [0, 8]
    stack := []
    pos := 0
    input := []
    output := [] }

/-- `Machine::get_register`: `self.registers[(reg - 32768) as usize]`.
The subtraction is on `u16`, so for `reg < 32768` it wraps modulo 65536
(`(reg + 32768) % 65536` below); an index outside the register vector is an
out-of-bounds panic, hence `none`. -/
def Machine.get_register (m : Machine) (reg : Nat) : Option Nat :=
  m.registers.get? ((reg + 32768) % 65536)

/-- `Machine::set_register`: `self.registers[(reg - 32768) as usize] = val`,
with the same wrapping subtraction and out-of-bounds panic as
`Machine.get_register`. -/
def Machine.set_register (m : Machine) (reg val : Nat) : Option Machine :=
  if (reg + 32768) % 65536 < m.registers.length then
    some { m with registers := m.registers.set ((reg + 32768) % 65536) val }
  else
    none

/-- `Machine::value`: a word `≤ 32767` is a literal, a word in 32768..32775
reads the selected register, anything larger is `panic!()`. -/
def Machine.value (m : Machine) (arg : Nat) : Option Nat :=
  if arg ≤ 32767 then some arg
  else if arg ≤ 32775 then m.get_register arg
  else none

/-- `Machine::next`: read `memory[pos]` (out of bounds panics), then store
`(pos + 1) as u16` back into `pos`. -/
def Machine.next (m : Machine) : Option (Nat × Machine) :=
  match m.memory.get? m.pos with
  | some w => some (w, { m with pos := (m.pos + 1) % 65536 })
  | none => none

/-- The body of the `match` in `Machine::match_opcode`, dispatching on the
fetched opcode word `w`; `m` is the machine state after the opcode word was
consumed. Each arm fetches that opcode's fixed number of raw operand words
with `next`, left to right; a word outside 0..21 yields `OpCode.None`. -/
def Machine.decodeWith (m : Machine) (w : Nat) : Option (OpCode × Machine) :=
  if w = 0 then some (.Halt, m)
  else if w = 1 then do
    let (a, m2) ← m.next
    let (b, m3) ← m2.next
    return (.Set a b, m3)
  else if w = 2 then do
    let (a, m2) ← m.next
    return (.Push a, m2)
  else if w = 3 then do
    let (a, m2) ← m.next
    return (.Pop a, m2)
  else if w = 4 then do
    let (a, m2) ← m.next
    let (b, m3) ← m2.next
    let (c, m4) ← m3.next
    return (.Eq a b c, m4)
  else if w = 5 then do
    let (a, m2) ← m.next
    let (b, m3) ← m2.next
    let (c, m4) ← m3.next
    return (.Gt a b c, m4)
  else if w = 6 then do
    let (a, m2) ← m.next
    return (.Jmp a, m2)
  else if w = 7 then do
    let (a, m2) ← m.next
    let (b, m3) ← m2.next
    return (.Jt a b, m3)
  else if w = 8 then do
    let (a, m2) ← m.next
    let (b, m3) ← m2.next
    return (.Jf a b, m3)
  else if w = 9 then do
    let (a, m2) ← m.next
    let (b, m3) ← m2.next
    let (c, m4) ← m3.next
    return (.Add a b c, m4)
  else if w = 10 then do
    let (a, m2) ← m.next
    let (b, m3) ← m2.next
    let (c, m4) ← m3.next
    return (.Mult a b c, m4)
  else if w = 11 then do
    let (a, m2) ← m.next
    let (b, m3) ← m2.next
    let (c, m4) ← m3.next
    return (.Mod a b c, m4)
  else if w = 12 then do
    let (a, m2) ← m.next
    let (b, m3) ← m2.next
    let (c, m4) ← m3.next
    return (.And a b c, m4)
  else if w = 13 then do
    let (a, m2) ← m.next
    let (b, m3) ← m2.next
    let (c, m4) ← m3.next
    return (.Or a b c, m4)
  else if w = 14 then do
    let (a, m2) ← m.next
    let (b, m3) ← m2.next
    return (.Not a b, m3)
  else if w = 15 then do
    let (a, m2) ← m.next
    let (b, m3) ← m2.next
    return (.Rmem a b, m3)
  else if w = 16 then do
    let (a, m2) ← m.next
    let (b, m3) ← m2.next
    return (.Wmem a b, m3)
  else if w = 17 then do
    let (a, m2) ← m.next
    return (.Call a, m2)
  else if w = 18 then some (.Ret, m)
  else if w = 19 then do
    let (a, m2) ← m.next
    return (.Out a, m2)
  else if w = 20 then do
    let (a, m2) ← m.next
    return (.In a, m2)
  else if w = 21 then some (.Noop, m)
  else some (.None, m)

/-- `Machine::match_opcode`: fetch the opcode word with `next`, then decode
through the `match` body `Machine.decodeWith`. -/
def Machine.match_opcode (m : Machine) : Option (OpCode × Machine) := do
  let (w, m1) ← m.next
  m1.decodeWith w

/-- `Machine::add`: the operands are widened to `u32`, added, and reduced
modulo 32768; the widening is the explicit `% 4294967296`. -/
def Machine.addOp (a b : Nat) : Nat :=
  ((a + b) % 4294967296) % 32768

/-- `Machine::mult`: the operands are widened to `u32`, multiplied, and
reduced modulo 32768; the widening is the explicit `% 4294967296`. -/
def Machine.multOp (a b : Nat) : Nat :=
  ((a * b) % 4294967296) % 32768

/-- The body of the `Not` arm of `tick`: `(!self.value(b)) & 32767`, i.e.
16-bit complement (xor with 65535) masked to 15 bits. -/
def Machine.notOp (v : Nat) : Nat :=
  (v ^^^ 65535) &&& 32767

/-- One arm of the `match` in `Machine::tick`, executing a decoded opcode on
the post-decode state. `some (b, m')` is tick's `return`-or-fall-through value
`b` together with the updated state; `none` is a panic.

The `Pop` arm of the source, `Some(top_value) => self.set_register(a, top)`,
passes the `Option<u16>` scrutinee `top` where a `u16` is expected and does
not typecheck (E0308); it is embedded here as storing the popped value
`top_value`, the evident intent of the `match`. -/
def Machine.execOp (op : OpCode) (m : Machine) : Option (Bool × Machine) :=
  match op with
  | .Halt => some (false, m)
  | .Set a b => do
    let v ← m.value b
    let m1 ← m.set_register a v
    return (true, m1)
  | .Push a => do
    let v ← m.value a
    return (true, { m with stack := v :: m.stack })
  | .Pop a =>
    match m.stack with
    | [] => some (false, m)
    | t :: rest => do
      let m1 ← Machine.set_register { m with stack := rest } a t
      return (true, m1)
  | .Eq a b c => do
    let vb ← m.value b
    let vc ← m.value c
    let m1 ← m.set_register a (if vb = vc then 1 else 0)
    return (true, m1)
  | .Gt a b c => do
    let vb ← m.value b
    let vc ← m.value c
    let m1 ← m.set_register a (if vc < vb then 1 else 0)
    return (true, m1)
  | .Jmp a => do
    let v ← m.value a
    return (true, { m with pos := v })
  | .Jt a b => do
    let va ← m.value a
    if va ≠ 0 then do
      let vb ← m.value b
      return (true, { m with pos := vb })
    else return (true, m)
  | .Jf a b => do
    let va ← m.value a
    if va = 0 then do
      let vb ← m.value b
      return (true, { m with pos := vb })
    else return (true, m)
  | .Add a b c => do
    let vb ← m.value b
    let vc ← m.value c
    let m1 ← m.set_register a (Machine.addOp vb vc)
    return (true, m1)
  | .Mult a b c => do
    let vb ← m.value b
    let vc ← m.value c
    let m1 ← m.set_register a (Machine.multOp vb vc)
    return (true, m1)
  | .Mod a b c => do
    let vb ← m.value b
    let vc ← m.value c
    if vc = 0 then none
    else do
      let m1 ← m.set_register a (vb % vc)
      return (true, m1)
  | .And a b c => do
    let vb ← m.value b
    let vc ← m.value c
    let m1 ← m.set_register a (vb &&& vc)
    return (true, m1)
  | .Or a b c => do
    let vb ← m.value b
    let vc ← m.value c
    let m1 ← m.set_register a (vb ||| vc)
    return (true, m1)
  | .Not a b => do
    let vb ← m.value b
    let m1 ← m.set_register a (Machine.notOp vb)
    return (true, m1)
  | .Rmem a b => do
    let vb ← m.value b
    let w ← m.memory.get? vb
    let m1 ← m.set_register a w
    return (true, m1)
  | .Wmem a b => do
    let va ← m.value a
    let vb ← m.value b
    if va < m.memory.length then
      return (true, { m with memory := m.memory.set va vb })
    else none
  | .Call a => do
    let va ← m.value a
    return (true, { m with stack := m.pos :: m.stack, pos := va })
  | .Ret =>
    match m.stack with
    | [] => some (false, m)
    | t :: rest => some (true, { m with pos := t, stack := rest })
  | .Out a => do
    let va ← m.value a
    return (true, { m with output := m.output ++ [va % 256] })
  | .In a =>
    match m.input with
    | [] => none
    | c :: rest => do
      let m1 ← Machine.set_register { m with input := rest } a c
      return (true, m1)
  | .Noop => some (true, m)
  | .None => none

/-- `Machine::tick`: decode one instruction and execute it. `some (true, m')`
is a step that continues, `some (false, m')` a step that stops normally,
`none` a fatal fault (panic). -/
def Machine.tick (m : Machine) : Option (Bool × Machine) := do
  let (op, m1) ← m.match_opcode
  Machine.execOp op m1

/-- The `while i < buf.len() - 1` loop of `Machine::load`. The loop bound is
the `usize` value of `buf.len() - 1`: for an empty buffer the subtraction
wraps to `2^64 - 1`. Each iteration reads `buf[i]` and `buf[i+1]` (out of
bounds panics) and writes `buf[i] | (buf[i+1] << 8)` to `memory[i / 2]`. -/
def loadLoop (mem buf : List Nat) (i : Nat) : Option (List Nat) :=
  if _h : i < (buf.length + 18446744073709551615) % 18446744073709551616 then
    match buf.get? i, buf.get? (i + 1) with
    | some b0, some b1 =>
      if i / 2 < mem.length then
        loadLoop (mem.set (i / 2) (b0 ||| (b1 <<< 8))) buf (i + 2)
      else none
    | _, _ => none
  else some mem
termination_by (buf.length + 18446744073709551615) % 18446744073709551616 - i
decreasing_by
  omega

/-- `Machine::load` on an already-read byte buffer: run the copying loop, then
report the byte count through `read.try_into().unwrap()`, which panics when
the count does not fit in `u16`. (Opening and reading the file itself is I/O
outside the embedding; its failures surface as the caller's `Err`.) -/
def Machine.load (m : Machine) (buf : List Nat) : Option (Machine × Nat) := do
  let mem ← loadLoop m.memory buf 0
  if buf.length ≤ 65535 then
    return ({ m with memory := mem }, buf.length)
  else none

/-! ## States used by concrete witnesses and counterexamples -/

/-- Byte image (little-endian pairs) of the five words
`[15, 32768, 4, 0, 32770]`: the instruction `rmem r0, 4` followed by the data
word 32770 at address 4. -/
def cexBytes : List Nat := [15, 0, 0, 128, 4, 0, 0, 0, 2, 128]

/-- The memory produced by loading `cexBytes` into a fresh machine. -/
def cexMem : List Nat :=
  (((((List.replicate 32768 0).set 0 15).set 1 32768).set 2 4).set 3 0).set 4 32770

/-- The machine state after `Machine.new` loads `cexBytes`. -/
def cexLoaded : Machine := { Machine.new with memory := cexMem }

/-- The machine state after one `tick` of `cexLoaded`: the `rmem` put the
memory word 32770 into register 0. -/
def cexStepped : Machine :=
  { cexLoaded with pos := 3, registers := (List.replicate 8 0).set 0 32770 }

/-- Machine states arising in the program's lifecycle: a fresh machine, a
fresh machine with a program image loaded, and anything a step reaches from
there. -/
inductive Reachable : Machine → Prop where
  | new : Reachable Machine.new
  | load (bytes : List Nat) (m : Machine) (k : Nat)
      (h : Machine.load Machine.new bytes = some (m, k)) : Reachable m
  | step (m : Machine) (b : Bool) (m' : Machine) (hm : Reachable m)
      (h : m.tick = some (b, m')) : Reachable m'

/-- Witness state: `pop r0` with an empty stack. -/
def popWitness : Machine :=
  { memory := [3, 32768], registers := List.replicate 8 0, stack := [],
    pos := 0, input := [], output := [] }

/-- Witness state: `ret` with an empty stack. -/
def retWitness : Machine :=
  { memory := [18], registers := List.replicate 8 0, stack := [],
    pos := 0, input := [], output := [] }

/-- Witness state: `add r0, 5, 6`. -/
def addWitness : Machine :=
  { memory := [9, 32768, 5, 6], registers := List.replicate 8 0, stack := [],
    pos := 0, input := [], output := [] }

/-- Witness state: `mult r1, 5, 6`. -/
def multWitness : Machine :=
  { memory := [10, 32769, 5, 6], registers := List.replicate 8 0, stack := [],
    pos := 0, input := [], output := [] }

/-- Witness state: `push 7` then `pop r2`. -/
def pushPopWitness : Machine :=
  { memory := [2, 7, 3, 32770], registers := List.replicate 8 0, stack := [],
    pos := 0, input := [], output := [] }

/-- Witness state: `call 4` with a `ret` at address 4. -/
def callRetWitness : Machine :=
  { memory := [17, 4, 0, 0, 18], registers := List.replicate 8 0, stack := [],
    pos := 0, input := [], output := [] }

/-- Witness state: a single `noop`. -/
def noopWitness : Machine :=
  { memory := [21], registers := List.replicate 8 0, stack := [],
    pos := 0, input := [], output := [] }

/-- The state after one `tick` of `noopWitness`. -/
def noopWitnessStepped : Machine :=
  { memory := [21], registers := List.replicate 8 0, stack := [],
    pos := 1, input := [], output := [] }

/-! ## Inversion lemmas for the decoder and executor -/

theorem Machine.next_eq_some_iff (m : Machine) (w : Nat) (m' : Machine) :
    m.next = some (w, m') ↔
      m.memory[m.pos]? = some w ∧ m' = { m with pos := (m.pos + 1) % 65536 } := by
  unfold Machine.next
  simp only [List.get?_eq_getElem?]
  cases h : m.memory[m.pos]? with
  | none => simp [h]
  | some w0 =>
    simp only [h, Option.some.injEq, Prod.mk.injEq]
    constructor
    · rintro ⟨rfl, rfl⟩
      exact ⟨rfl, rfl⟩
    · rintro ⟨hw, rfl⟩
      exact ⟨hw, rfl⟩

theorem Machine.set_register_eq_some (m : Machine) (a v : Nat) (m1 : Machine) :
    m.set_register a v = some m1 ↔
      (a + 32768) % 65536 < m.registers.length ∧
      m1 = { m with registers := m.registers.set ((a + 32768) % 65536) v } := by
  unfold Machine.set_register
  split_ifs with hlt
  · simp only [Option.some.injEq]
    constructor
    · rintro rfl; exact ⟨hlt, rfl⟩
    · rintro ⟨-, rfl⟩; rfl
  · simp [hlt]

theorem Machine.value_only_registers (m n : Machine) (hreg : n.registers = m.registers)
    (x : Nat) : n.value x = m.value x := by
  unfold Machine.value Machine.get_register
  rw [hreg]

set_option maxHeartbeats 3200000 in
/-- Decode inversion: a successful decode leaves every state component except
the program counter unchanged, and the decoded instruction is `Wmem` exactly
when the opcode word in memory at the pre-decode position is 16 (in which
case the first raw operand is the word following it). -/
theorem Machine.match_opcode_inv (m : Machine) (op : OpCode) (m1 : Machine)
    (h : m.match_opcode = some (op, m1)) :
    (m1.memory = m.memory ∧ m1.registers = m.registers ∧ m1.stack = m.stack ∧
      m1.input = m.input ∧ m1.output = m.output) ∧
    (∀ a c, op = OpCode.Wmem a c → m.memory[m.pos]? = some 16 ∧
      m.memory[(m.pos + 1) % 65536]? = some a) ∧
    (m.memory[m.pos]? = some 16 → ∃ a c, op = OpCode.Wmem a c) := by
  unfold Machine.match_opcode at h
  try simp only [Option.bind_eq_bind] at h
  rw [Option.bind_eq_some] at h
  obtain ⟨⟨w, mm⟩, hnext, hdec⟩ := h
  rw [Machine.next_eq_some_iff] at hnext
  obtain ⟨hw0, rfl⟩ := hnext
  rcases eq_or_ne w 0 with rfl | e0
  · norm_num [Machine.decodeWith] at hdec
    try simp only [Option.some.injEq, Prod.mk.injEq] at hdec
    obtain ⟨rfl, rfl⟩ := hdec
    exact ⟨⟨rfl, rfl, rfl, rfl, rfl⟩, fun a c hac => OpCode.noConfusion hac,
      fun h16 => by rw [hw0] at h16; simp at h16⟩
  rcases eq_or_ne w 1 with rfl | e1
  · norm_num [Machine.decodeWith] at hdec
    rw [Option.bind_eq_some] at hdec
    obtain ⟨⟨a1, s1⟩, hn1, hdec⟩ := hdec
    rw [Option.bind_eq_some] at hdec
    obtain ⟨⟨a2, s2⟩, hn2, hdec⟩ := hdec
    rw [Machine.next_eq_some_iff] at hn1
    obtain ⟨hq1, rfl⟩ := hn1
    rw [Machine.next_eq_some_iff] at hn2
    obtain ⟨hq2, rfl⟩ := hn2
    try simp only [Option.some.injEq, Prod.mk.injEq] at hdec
    obtain ⟨rfl, rfl⟩ := hdec
    exact ⟨⟨rfl, rfl, rfl, rfl, rfl⟩, fun a c hac => OpCode.noConfusion hac,
      fun h16 => by rw [hw0] at h16; simp at h16⟩
  rcases eq_or_ne w 2 with rfl | e2
  · norm_num [Machine.decodeWith] at hdec
    rw [Option.bind_eq_some] at hdec
    obtain ⟨⟨a1, s1⟩, hn1, hdec⟩ := hdec
    rw [Machine.next_eq_some_iff] at hn1
    obtain ⟨hq1, rfl⟩ := hn1
    try simp only [Option.some.injEq, Prod.mk.injEq] at hdec
    obtain ⟨rfl, rfl⟩ := hdec
    exact ⟨⟨rfl, rfl, rfl, rfl, rfl⟩, fun a c hac => OpCode.noConfusion hac,
      fun h16 => by rw [hw0] at h16; simp at h16⟩
  rcases eq_or_ne w 3 with rfl | e3
  · norm_num [Machine.decodeWith] at hdec
    rw [Option.bind_eq_some] at hdec
    obtain ⟨⟨a1, s1⟩, hn1, hdec⟩ := hdec
    rw [Machine.next_eq_some_iff] at hn1
    obtain ⟨hq1, rfl⟩ := hn1
    try simp only [Option.some.injEq, Prod.mk.injEq] at hdec
    obtain ⟨rfl, rfl⟩ := hdec
    exact ⟨⟨rfl, rfl, rfl, rfl, rfl⟩, fun a c hac => OpCode.noConfusion hac,
      fun h16 => by rw [hw0] at h16; simp at h16⟩
  rcases eq_or_ne w 4 with rfl | e4
  · norm_num [Machine.decodeWith] at hdec
    rw [Option.bind_eq_some] at hdec
    obtain ⟨⟨a1, s1⟩, hn1, hdec⟩ := hdec
    rw [Option.bind_eq_some] at hdec
    obtain ⟨⟨a2, s2⟩, hn2, hdec⟩ := hdec
    rw [Option.bind_eq_some] at hdec
    obtain ⟨⟨a3, s3⟩, hn3, hdec⟩ := hdec
    rw [Machine.next_eq_some_iff] at hn1
    obtain ⟨hq1, rfl⟩ := hn1
    rw [Machine.next_eq_some_iff] at hn2
    obtain ⟨hq2, rfl⟩ := hn2
    rw [Machine.next_eq_some_iff] at hn3
    obtain ⟨hq3, rfl⟩ := hn3
    try simp only [Option.some.injEq, Prod.mk.injEq] at hdec
    obtain ⟨rfl, rfl⟩ := hdec
    exact ⟨⟨rfl, rfl, rfl, rfl, rfl⟩, fun a c hac => OpCode.noConfusion hac,
      fun h16 => by rw [hw0] at h16; simp at h16⟩
  rcases eq_or_ne w 5 with rfl | e5
  · norm_num [Machine.decodeWith] at hdec
    rw [Option.bind_eq_some] at hdec
    obtain ⟨⟨a1, s1⟩, hn1, hdec⟩ := hdec
    rw [Option.bind_eq_some] at hdec
    obtain ⟨⟨a2, s2⟩, hn2, hdec⟩ := hdec
    rw [Option.bind_eq_some] at hdec
    obtain ⟨⟨a3, s3⟩, hn3, hdec⟩ := hdec
    rw [Machine.next_eq_some_iff] at hn1
    obtain ⟨hq1, rfl⟩ := hn1
    rw [Machine.next_eq_some_iff] at hn2
    obtain ⟨hq2, rfl⟩ := hn2
    rw [Machine.next_eq_some_iff] at hn3
    obtain ⟨hq3, rfl⟩ := hn3
    try simp only [Option.some.injEq, Prod.mk.injEq] at hdec
    obtain ⟨rfl, rfl⟩ := hdec
    exact ⟨⟨rfl, rfl, rfl, rfl, rfl⟩, fun a c hac => OpCode.noConfusion hac,
      fun h16 => by rw [hw0] at h16; simp at h16⟩
  rcases eq_or_ne w 6 with rfl | e6
  · norm_num [Machine.decodeWith] at hdec
    rw [Option.bind_eq_some] at hdec
    obtain ⟨⟨a1, s1⟩, hn1, hdec⟩ := hdec
    rw [Machine.next_eq_some_iff] at hn1
    obtain ⟨hq1, rfl⟩ := hn1
    try simp only [Option.some.injEq, Prod.mk.injEq] at hdec
    obtain ⟨rfl, rfl⟩ := hdec
    exact ⟨⟨rfl, rfl, rfl, rfl, rfl⟩, fun a c hac => OpCode.noConfusion hac,
      fun h16 => by rw [hw0] at h16; simp at h16⟩
  rcases eq_or_ne w 7 with rfl | e7
  · norm_num [Machine.decodeWith] at hdec
    rw [Option.bind_eq_some] at hdec
    obtain ⟨⟨a1, s1⟩, hn1, hdec⟩ := hdec
    rw [Option.bind_eq_some] at hdec
    obtain ⟨⟨a2, s2⟩, hn2, hdec⟩ := hdec
    rw [Machine.next_eq_some_iff] at hn1
    obtain ⟨hq1, rfl⟩ := hn1
    rw [Machine.next_eq_some_iff] at hn2
    obtain ⟨hq2, rfl⟩ := hn2
    try simp only [Option.some.injEq, Prod.mk.injEq] at hdec
    obtain ⟨rfl, rfl⟩ := hdec
    exact ⟨⟨rfl, rfl, rfl, rfl, rfl⟩, fun a c hac => OpCode.noConfusion hac,
      fun h16 => by rw [hw0] at h16; simp at h16⟩
  rcases eq_or_ne w 8 with rfl | e8
  · norm_num [Machine.decodeWith] at hdec
    rw [Option.bind_eq_some] at hdec
    obtain ⟨⟨a1, s1⟩, hn1, hdec⟩ := hdec
    rw [Option.bind_eq_some] at hdec
    obtain ⟨⟨a2, s2⟩, hn2, hdec⟩ := hdec
    rw [Machine.next_eq_some_iff] at hn1
    obtain ⟨hq1, rfl⟩ := hn1
    rw [Machine.next_eq_some_iff] at hn2
    obtain ⟨hq2, rfl⟩ := hn2
    try simp only [Option.some.injEq, Prod.mk.injEq] at hdec
    obtain ⟨rfl, rfl⟩ := hdec
    exact ⟨⟨rfl, rfl, rfl, rfl, rfl⟩, fun a c hac => OpCode.noConfusion hac,
      fun h16 => by rw [hw0] at h16; simp at h16⟩
  rcases eq_or_ne w 9 with rfl | e9
  · norm_num [Machine.decodeWith] at hdec
    rw [Option.bind_eq_some] at hdec
    obtain ⟨⟨a1, s1⟩, hn1, hdec⟩ := hdec
    rw [Option.bind_eq_some] at hdec
    obtain ⟨⟨a2, s2⟩, hn2, hdec⟩ := hdec
    rw [Option.bind_eq_some] at hdec
    obtain ⟨⟨a3, s3⟩, hn3, hdec⟩ := hdec
    rw [Machine.next_eq_some_iff] at hn1
    obtain ⟨hq1, rfl⟩ := hn1
    rw [Machine.next_eq_some_iff] at hn2
    obtain ⟨hq2, rfl⟩ := hn2
    rw [Machine.next_eq_some_iff] at hn3
    obtain ⟨hq3, rfl⟩ := hn3
    try simp only [Option.some.injEq, Prod.mk.injEq] at hdec
    obtain ⟨rfl, rfl⟩ := hdec
    exact ⟨⟨rfl, rfl, rfl, rfl, rfl⟩, fun a c hac => OpCode.noConfusion hac,
      fun h16 => by rw [hw0] at h16; simp at h16⟩
  rcases eq_or_ne w 10 with rfl | e10
  · norm_num [Machine.decodeWith] at hdec
    rw [Option.bind_eq_some] at hdec
    obtain ⟨⟨a1, s1⟩, hn1, hdec⟩ := hdec
    rw [Option.bind_eq_some] at hdec
    obtain ⟨⟨a2, s2⟩, hn2, hdec⟩ := hdec
    rw [Option.bind_eq_some] at hdec
    obtain ⟨⟨a3, s3⟩, hn3, hdec⟩ := hdec
    rw [Machine.next_eq_some_iff] at hn1
    obtain ⟨hq1, rfl⟩ := hn1
    rw [Machine.next_eq_some_iff] at hn2
    obtain ⟨hq2, rfl⟩ := hn2
    rw [Machine.next_eq_some_iff] at hn3
    obtain ⟨hq3, rfl⟩ := hn3
    try simp only [Option.some.injEq, Prod.mk.injEq] at hdec
    obtain ⟨rfl, rfl⟩ := hdec
    exact ⟨⟨rfl, rfl, rfl, rfl, rfl⟩, fun a c hac => OpCode.noConfusion hac,
      fun h16 => by rw [hw0] at h16; simp at h16⟩
  rcases eq_or_ne w 11 with rfl | e11
  · norm_num [Machine.decodeWith] at hdec
    rw [Option.bind_eq_some] at hdec
    obtain ⟨⟨a1, s1⟩, hn1, hdec⟩ := hdec
    rw [Option.bind_eq_some] at hdec
    obtain ⟨⟨a2, s2⟩, hn2, hdec⟩ := hdec
    rw [Option.bind_eq_some] at hdec
    obtain ⟨⟨a3, s3⟩, hn3, hdec⟩ := hdec
    rw [Machine.next_eq_some_iff] at hn1
    obtain ⟨hq1, rfl⟩ := hn1
    rw [Machine.next_eq_some_iff] at hn2
    obtain ⟨hq2, rfl⟩ := hn2
    rw [Machine.next_eq_some_iff] at hn3
    obtain ⟨hq3, rfl⟩ := hn3
    try simp only [Option.some.injEq, Prod.mk.injEq] at hdec
    obtain ⟨rfl, rfl⟩ := hdec
    exact ⟨⟨rfl, rfl, rfl, rfl, rfl⟩, fun a c hac => OpCode.noConfusion hac,
      fun h16 => by rw [hw0] at h16; simp at h16⟩
  rcases eq_or_ne w 12 with rfl | e12
  · norm_num [Machine.decodeWith] at hdec
    rw [Option.bind_eq_some] at hdec
    obtain ⟨⟨a1, s1⟩, hn1, hdec⟩ := hdec
    rw [Option.bind_eq_some] at hdec
    obtain ⟨⟨a2, s2⟩, hn2, hdec⟩ := hdec
    rw [Option.bind_eq_some] at hdec
    obtain ⟨⟨a3, s3⟩, hn3, hdec⟩ := hdec
    rw [Machine.next_eq_some_iff] at hn1
    obtain ⟨hq1, rfl⟩ := hn1
    rw [Machine.next_eq_some_iff] at hn2
    obtain ⟨hq2, rfl⟩ := hn2
    rw [Machine.next_eq_some_iff] at hn3
    obtain ⟨hq3, rfl⟩ := hn3
    try simp only [Option.some.injEq, Prod.mk.injEq] at hdec
    obtain ⟨rfl, rfl⟩ := hdec
    exact ⟨⟨rfl, rfl, rfl, rfl, rfl⟩, fun a c hac => OpCode.noConfusion hac,
      fun h16 => by rw [hw0] at h16; simp at h16⟩
  rcases eq_or_ne w 13 with rfl | e13
  · norm_num [Machine.decodeWith] at hdec
    rw [Option.bind_eq_some] at hdec
    obtain ⟨⟨a1, s1⟩, hn1, hdec⟩ := hdec
    rw [Option.bind_eq_some] at hdec
    obtain ⟨⟨a2, s2⟩, hn2, hdec⟩ := hdec
    rw [Option.bind_eq_some] at hdec
    obtain ⟨⟨a3, s3⟩, hn3, hdec⟩ := hdec
    rw [Machine.next_eq_some_iff] at hn1
    obtain ⟨hq1, rfl⟩ := hn1
    rw [Machine.next_eq_some_iff] at hn2
    obtain ⟨hq2, rfl⟩ := hn2
    rw [Machine.next_eq_some_iff] at hn3
    obtain ⟨hq3, rfl⟩ := hn3
    try simp only [Option.some.injEq, Prod.mk.injEq] at hdec
    obtain ⟨rfl, rfl⟩ := hdec
    exact ⟨⟨rfl, rfl, rfl, rfl, rfl⟩, fun a c hac => OpCode.noConfusion hac,
      fun h16 => by rw [hw0] at h16; simp at h16⟩
  rcases eq_or_ne w 14 with rfl | e14
  · norm_num [Machine.decodeWith] at hdec
    rw [Option.bind_eq_some] at hdec
    obtain ⟨⟨a1, s1⟩, hn1, hdec⟩ := hdec
    rw [Option.bind_eq_some] at hdec
    obtain ⟨⟨a2, s2⟩, hn2, hdec⟩ := hdec
    rw [Machine.next_eq_some_iff] at hn1
    obtain ⟨hq1, rfl⟩ := hn1
    rw [Machine.next_eq_some_iff] at hn2
    obtain ⟨hq2, rfl⟩ := hn2
    try simp only [Option.some.injEq, Prod.mk.injEq] at hdec
    obtain ⟨rfl, rfl⟩ := hdec
    exact ⟨⟨rfl, rfl, rfl, rfl, rfl⟩, fun a c hac => OpCode.noConfusion hac,
      fun h16 => by rw [hw0] at h16; simp at h16⟩
  rcases eq_or_ne w 15 with rfl | e15
  · norm_num [Machine.decodeWith] at hdec
    rw [Option.bind_eq_some] at hdec
    obtain ⟨⟨a1, s1⟩, hn1, hdec⟩ := hdec
    rw [Option.bind_eq_some] at hdec
    obtain ⟨⟨a2, s2⟩, hn2, hdec⟩ := hdec
    rw [Machine.next_eq_some_iff] at hn1
    obtain ⟨hq1, rfl⟩ := hn1
    rw [Machine.next_eq_some_iff] at hn2
    obtain ⟨hq2, rfl⟩ := hn2
    try simp only [Option.some.injEq, Prod.mk.injEq] at hdec
    obtain ⟨rfl, rfl⟩ := hdec
    exact ⟨⟨rfl, rfl, rfl, rfl, rfl⟩, fun a c hac => OpCode.noConfusion hac,
      fun h16 => by rw [hw0] at h16; simp at h16⟩
  rcases eq_or_ne w 16 with rfl | e16
  · norm_num [Machine.decodeWith] at hdec
    rw [Option.bind_eq_some] at hdec
    obtain ⟨⟨a1, s1⟩, hn1, hdec⟩ := hdec
    rw [Option.bind_eq_some] at hdec
    obtain ⟨⟨a2, s2⟩, hn2, hdec⟩ := hdec
    rw [Machine.next_eq_some_iff] at hn1
    obtain ⟨hq1, rfl⟩ := hn1
    rw [Machine.next_eq_some_iff] at hn2
    obtain ⟨hq2, rfl⟩ := hn2
    try simp only [Option.some.injEq, Prod.mk.injEq] at hdec
    obtain ⟨rfl, rfl⟩ := hdec
    refine ⟨⟨rfl, rfl, rfl, rfl, rfl⟩, ?_, fun _ => ⟨a1, a2, rfl⟩⟩
    rintro a c hac
    injection hac with ha hc
    subst ha
    exact ⟨hw0, hq1⟩
  rcases eq_or_ne w 17 with rfl | e17
  · norm_num [Machine.decodeWith] at hdec
    rw [Option.bind_eq_some] at hdec
    obtain ⟨⟨a1, s1⟩, hn1, hdec⟩ := hdec
    rw [Machine.next_eq_some_iff] at hn1
    obtain ⟨hq1, rfl⟩ := hn1
    try simp only [Option.some.injEq, Prod.mk.injEq] at hdec
    obtain ⟨rfl, rfl⟩ := hdec
    exact ⟨⟨rfl, rfl, rfl, rfl, rfl⟩, fun a c hac => OpCode.noConfusion hac,
      fun h16 => by rw [hw0] at h16; simp at h16⟩
  rcases eq_or_ne w 18 with rfl | e18
  · norm_num [Machine.decodeWith] at hdec
    try simp only [Option.some.injEq, Prod.mk.injEq] at hdec
    obtain ⟨rfl, rfl⟩ := hdec
    exact ⟨⟨rfl, rfl, rfl, rfl, rfl⟩, fun a c hac => OpCode.noConfusion hac,
      fun h16 => by rw [hw0] at h16; simp at h16⟩
  rcases eq_or_ne w 19 with rfl | e19
  · norm_num [Machine.decodeWith] at hdec
    rw [Option.bind_eq_some] at hdec
    obtain ⟨⟨a1, s1⟩, hn1, hdec⟩ := hdec
    rw [Machine.next_eq_some_iff] at hn1
    obtain ⟨hq1, rfl⟩ := hn1
    try simp only [Option.some.injEq, Prod.mk.injEq] at hdec
    obtain ⟨rfl, rfl⟩ := hdec
    exact ⟨⟨rfl, rfl, rfl, rfl, rfl⟩, fun a c hac => OpCode.noConfusion hac,
      fun h16 => by rw [hw0] at h16; simp at h16⟩
  rcases eq_or_ne w 20 with rfl | e20
  · norm_num [Machine.decodeWith] at hdec
    rw [Option.bind_eq_some] at hdec
    obtain ⟨⟨a1, s1⟩, hn1, hdec⟩ := hdec
    rw [Machine.next_eq_some_iff] at hn1
    obtain ⟨hq1, rfl⟩ := hn1
    try simp only [Option.some.injEq, Prod.mk.injEq] at hdec
    obtain ⟨rfl, rfl⟩ := hdec
    exact ⟨⟨rfl, rfl, rfl, rfl, rfl⟩, fun a c hac => OpCode.noConfusion hac,
      fun h16 => by rw [hw0] at h16; simp at h16⟩
  rcases eq_or_ne w 21 with rfl | e21
  · norm_num [Machine.decodeWith] at hdec
    try simp only [Option.some.injEq, Prod.mk.injEq] at hdec
    obtain ⟨rfl, rfl⟩ := hdec
    exact ⟨⟨rfl, rfl, rfl, rfl, rfl⟩, fun a c hac => OpCode.noConfusion hac,
      fun h16 => by rw [hw0] at h16; simp at h16⟩
  norm_num [Machine.decodeWith, e0, e1, e2, e3, e4, e5, e6, e7, e8, e9, e10, e11, e12, e13, e14, e15, e16, e17, e18, e19, e20, e21] at hdec
  try simp only [Option.some.injEq, Prod.mk.injEq] at hdec
  obtain ⟨rfl, rfl⟩ := hdec
  exact ⟨⟨rfl, rfl, rfl, rfl, rfl⟩, fun a c hac => OpCode.noConfusion hac,
    fun h16 => by rw [hw0] at h16; simp at h16; omega⟩

/-- Executor memory frame: executing any decoded instruction other than `Wmem`
leaves memory unchanged; executing `Wmem a c` writes exactly one resolved
address. -/
theorem Machine.execOp_memory (op : OpCode) (m : Machine) (b : Bool) (m' : Machine)
    (h : Machine.execOp op m = some (b, m')) :
    ((∀ a c, op ≠ OpCode.Wmem a c) → m'.memory = m.memory) ∧
    (∀ a c, op = OpCode.Wmem a c → ∃ addr v, m.value a = some addr ∧
      m'.memory = m.memory.set addr v ∧ ∀ i, i ≠ addr → m'.memory[i]? = m.memory[i]?) := by
  constructor
  · intro hne
    cases op with
    | Wmem a c => exact absurd rfl (hne a c)
    | _ =>
      simp only [Machine.execOp, Option.bind_eq_bind, Option.pure_def] at h
      repeat' first
        | (rw [Option.bind_eq_some] at h
           obtain ⟨_, _, h⟩ := h)
        | (split at h)
      all_goals (try simp_all [Machine.set_register_eq_some])
      all_goals first
        | rfl
        | (obtain ⟨-, rfl⟩ := h; rfl)
  · rintro a c rfl
    simp only [Machine.execOp, Option.bind_eq_bind, Option.pure_def] at h
    rw [Option.bind_eq_some] at h
    obtain ⟨addr, haddr, h⟩ := h
    rw [Option.bind_eq_some] at h
    obtain ⟨v, hv, h⟩ := h
    split at h
    · simp only [Option.some.injEq, Prod.mk.injEq] at h
      obtain ⟨rfl, rfl⟩ := h
      exact ⟨addr, v, haddr, rfl, fun i hi => List.getElem?_set_ne (Ne.symm hi)⟩
    · exact absurd h (by simp)

/-! ## Claim theorems -/

/-- C1: for every operand word, value resolution returns a word in 0..32767
unchanged, returns the current content of register `w - 32768` for a word in
32768..32775, and fails fatally (`none`, the machine stops abnormally) for
every word of 32776 or greater. -/
theorem value_resolution_literal_register_fatal (m : Machine)
    (h8 : m.registers.length = 8) (w1 w2 w3 : Nat)
    (hw1 : w1 ≤ 32767) (hw2l : 32768 ≤ w2) (hw2h : w2 ≤ 32775) (hw3 : 32776 ≤ w3) :
    m.value w1 = some w1 ∧
    m.value w2 = m.registers[w2 - 32768]? ∧ (m.value w2).isSome = true ∧
    m.value w3 = none := by
  have hidx : (w2 + 32768) % 65536 = w2 - 32768 := by omega
  have hlt : w2 - 32768 < m.registers.length := by omega
  have hn2 : ¬ w2 ≤ 32767 := by omega
  have hn3a : ¬ w3 ≤ 32767 := by omega
  have hn3b : ¬ w3 ≤ 32775 := by omega
  refine ⟨by simp [Machine.value, hw1], ?_, ?_, ?_⟩
  · simp [Machine.value, Machine.get_register, hidx, hn2, hw2h]
  · simp [Machine.value, Machine.get_register, hidx, hn2, hw2h,
      List.getElem?_eq_getElem hlt]
  · simp [Machine.value, hn3a, hn3b]

/-- Witness for C1 at the fresh machine with operands 7, 32770 and 40000. -/
theorem value_resolution_literal_register_fatal_witness :
    Machine.new.registers.length = 8 ∧
    (Machine.new.value 7 = some 7 ∧
     Machine.new.value 32770 = Machine.new.registers[32770 - 32768]? ∧
     (Machine.new.value 32770).isSome = true ∧
     Machine.new.value 40000 = none) :=
  ⟨by decide, value_resolution_literal_register_fatal Machine.new (by decide)
    7 32770 40000 (by decide) (by decide) (by decide) (by decide)⟩

/-- C2: with an empty stack, a step decoding `pop` and a step decoding `ret`
each return `some (false, _)` — the machine stops normally, no fault — and
leave registers, memory and the (empty) stack unchanged. -/
theorem pop_ret_empty_stack_stop_without_fault (m n : Machine) (a : Nat)
    (hms : m.stack = []) (hm3 : m.memory[m.pos]? = some 3)
    (hma : m.memory[(m.pos + 1) % 65536]? = some a)
    (hns : n.stack = []) (hn18 : n.memory[n.pos]? = some 18) :
    (∃ m', m.tick = some (false, m') ∧ m'.registers = m.registers ∧
      m'.memory = m.memory ∧ m'.stack = []) ∧
    (∃ n', n.tick = some (false, n') ∧ n'.registers = n.registers ∧
      n'.memory = n.memory ∧ n'.stack = []) := by
  constructor
  · refine ⟨{ m with pos := ((m.pos + 1) % 65536 + 1) % 65536 }, ?_, rfl, rfl, hms⟩
    simp [Machine.tick, Machine.match_opcode, Machine.decodeWith, Machine.next,
      Machine.execOp, hm3, hma, hms]
  · refine ⟨{ n with pos := (n.pos + 1) % 65536 }, ?_, rfl, rfl, hns⟩
    simp [Machine.tick, Machine.match_opcode, Machine.decodeWith, Machine.next,
      Machine.execOp, hn18, hns]

/-- Witness for C2: `pop r0` on `[3, 32768]` and `ret` on `[18]`, both with an
empty stack. -/
theorem pop_ret_empty_stack_stop_without_fault_witness :
    (popWitness.stack = [] ∧ popWitness.memory[popWitness.pos]? = some 3 ∧
     popWitness.memory[(popWitness.pos + 1) % 65536]? = some 32768 ∧
     retWitness.stack = [] ∧ retWitness.memory[retWitness.pos]? = some 18) ∧
    ((∃ m', popWitness.tick = some (false, m') ∧ m'.registers = popWitness.registers ∧
       m'.memory = popWitness.memory ∧ m'.stack = []) ∧
     (∃ n', retWitness.tick = some (false, n') ∧ n'.registers = retWitness.registers ∧
       n'.memory = retWitness.memory ∧ n'.stack = [])) :=
  ⟨⟨rfl, by decide, by decide, rfl, by decide⟩,
   pop_ret_empty_stack_stop_without_fault popWitness retWitness 32768
     rfl (by decide) (by decide) rfl (by decide)⟩

/-- C4: the `not` operation of the executor — 16-bit complement masked to 15
bits — applied twice to a 15-bit value returns that value, and a single
application always yields a result in 0..32767. -/
theorem not_involution_and_range (v w : Nat) (hv : v ≤ 32767) :
    Machine.notOp (Machine.notOp v) = v ∧ Machine.notOp w ≤ 32767 := by
  constructor
  · apply Nat.eq_of_testBit_eq
    intro i
    have h65535 : (65535 : Nat) = 2 ^ 16 - 1 := by norm_num
    have h32767 : (32767 : Nat) = 2 ^ 15 - 1 := by norm_num
    simp only [Machine.notOp, Nat.testBit_land, Nat.testBit_xor, h65535, h32767,
      Nat.testBit_two_pow_sub_one]
    by_cases hi : i < 15
    · have hi16 : i < 16 := by omega
      simp [hi, hi16]
    · have hvb : v.testBit i = false := by
        apply Nat.testBit_lt_two_pow
        calc v < 2 ^ 15 := by omega
          _ ≤ 2 ^ i := Nat.pow_le_pow_right (by norm_num) (by omega)
      simp [hi, hvb]
  · exact Nat.and_le_right

/-- Witness for C4 at v = 1234 and w = 50000. -/
theorem not_involution_and_range_witness :
    1234 ≤ 32767 ∧
    (Machine.notOp (Machine.notOp 1234) = 1234 ∧ Machine.notOp 50000 ≤ 32767) :=
  ⟨by decide, not_involution_and_range 1234 50000 (by decide)⟩

/-- C3: executing `add D, a, b` with 15-bit resolved sources stores
`(a + b) % 32768` in register D; executing `mult D, a, b` stores
`(a * b) % 32768`; and the executor's product, computed at `u32` precision,
suffers no overflow before the modulus is applied. -/
theorem add_mult_store_mod32768 (m n : Machine) (d e a b a2 b2 : Nat)
    (hm8 : m.registers.length = 8) (hn8 : n.registers.length = 8)
    (hml : m.memory.length ≤ 32768) (hnl : n.memory.length ≤ 32768)
    (hd : 32768 ≤ d) (hd' : d ≤ 32775) (he : 32768 ≤ e) (he' : e ≤ 32775)
    (ha : a ≤ 32767) (hb : b ≤ 32767) (ha2 : a2 ≤ 32767) (hb2 : b2 ≤ 32767)
    (hm0 : m.memory[m.pos]? = some 9) (hm1 : m.memory[m.pos + 1]? = some d)
    (hm2 : m.memory[m.pos + 2]? = some a) (hm3 : m.memory[m.pos + 3]? = some b)
    (hn0 : n.memory[n.pos]? = some 10) (hn1 : n.memory[n.pos + 1]? = some e)
    (hn2 : n.memory[n.pos + 2]? = some a2) (hn3 : n.memory[n.pos + 3]? = some b2) :
    (∃ m', m.tick = some (true, m') ∧
      m'.registers[d - 32768]? = some ((a + b) % 32768)) ∧
    (∃ n', n.tick = some (true, n') ∧
      n'.registers[e - 32768]? = some ((a2 * b2) % 32768)) ∧
    Machine.multOp a2 b2 = (a2 * b2) % 32768 := by
  have hmul : Machine.multOp a2 b2 = (a2 * b2) % 32768 := by
    unfold Machine.multOp
    have hlt : a2 * b2 < 4294967296 := by
      calc a2 * b2 ≤ 32767 * 32767 := Nat.mul_le_mul ha2 hb2
        _ < 4294967296 := by norm_num
    rw [Nat.mod_eq_of_lt hlt]
  refine ⟨?_, ?_, hmul⟩
  · obtain ⟨hp, -⟩ := List.getElem?_eq_some_iff.mp hm1
    have e1 : (m.pos + 1) % 65536 = m.pos + 1 := by omega
    have e2 : (m.pos + 1 + 1) % 65536 = m.pos + 2 := by omega
    have e3 : (m.pos + 2 + 1) % 65536 = m.pos + 3 := by omega
    have e4 : (m.pos + 3 + 1) % 65536 = m.pos + 4 := by omega
    have hidx : (d + 32768) % 65536 = d - 32768 := by omega
    have hlt : d - 32768 < m.registers.length := by omega
    have hadd : Machine.addOp a b = (a + b) % 32768 := by
      unfold Machine.addOp
      omega
    refine ⟨{ m with pos := m.pos + 4, registers := m.registers.set (d - 32768) ((a + b) % 32768) }, ?_, ?_⟩
    · simp [Machine.tick, Machine.match_opcode, Machine.decodeWith, Machine.next,
        Machine.execOp, Machine.value, Machine.get_register, Machine.set_register,
        hm0, hm1, hm2, hm3, e1, e2, e3, e4, hidx, hlt, ha, hb, hadd]
    · simp [List.getElem?_set_self hlt]
  · obtain ⟨hp, -⟩ := List.getElem?_eq_some_iff.mp hn1
    have e1 : (n.pos + 1) % 65536 = n.pos + 1 := by omega
    have e2 : (n.pos + 1 + 1) % 65536 = n.pos + 2 := by omega
    have e3 : (n.pos + 2 + 1) % 65536 = n.pos + 3 := by omega
    have e4 : (n.pos + 3 + 1) % 65536 = n.pos + 4 := by omega
    have hidx : (e + 32768) % 65536 = e - 32768 := by omega
    have hlt : e - 32768 < n.registers.length := by omega
    refine ⟨{ n with pos := n.pos + 4, registers := n.registers.set (e - 32768) ((a2 * b2) % 32768) }, ?_, ?_⟩
    · simp [Machine.tick, Machine.match_opcode, Machine.decodeWith, Machine.next,
        Machine.execOp, Machine.value, Machine.get_register, Machine.set_register,
        hn0, hn1, hn2, hn3, e1, e2, e3, e4, hidx, hlt, ha2, hb2, hmul]
    · simp [List.getElem?_set_self hlt]

/-- Witness for C3: `add r0, 5, 6` and `mult r1, 5, 6`. -/
theorem add_mult_store_mod32768_witness :
    (addWitness.memory[addWitness.pos]? = some 9 ∧
     multWitness.memory[multWitness.pos]? = some 10) ∧
    ((∃ m', addWitness.tick = some (true, m') ∧
       m'.registers[32768 - 32768]? = some ((5 + 6) % 32768)) ∧
     (∃ n', multWitness.tick = some (true, n') ∧
       n'.registers[32769 - 32768]? = some ((5 * 6) % 32768)) ∧
     Machine.multOp 5 6 = (5 * 6) % 32768) :=
  ⟨⟨by decide, by decide⟩,
   add_mult_store_mod32768 addWitness multWitness 32768 32769 5 6 5 6
     (by decide) (by decide) (by decide) (by decide) (by decide) (by decide)
     (by decide) (by decide) (by decide) (by decide) (by decide) (by decide)
     (by decide) (by decide) (by decide) (by decide) (by decide) (by decide)
     (by decide) (by decide)⟩

/-- C5 (on the evident intent of the non-compiling `Pop` arm): for every
machine state, executing `push` with resolved source v and then `pop` into
register D leaves v in register D, and the stack size after the pop equals
its size before the push. -/
theorem push_pop_roundtrip (m : Machine) (s d v : Nat)
    (h8 : m.registers.length = 8) (hml : m.memory.length ≤ 32768)
    (hd : 32768 ≤ d) (hd' : d ≤ 32775)
    (h0 : m.memory[m.pos]? = some 2) (h1 : m.memory[m.pos + 1]? = some s)
    (h2 : m.memory[m.pos + 2]? = some 3) (h3 : m.memory[m.pos + 3]? = some d)
    (hv : m.value s = some v) :
    ∃ m1 m2, m.tick = some (true, m1) ∧ m1.stack = v :: m.stack ∧
      m1.tick = some (true, m2) ∧ m2.registers[d - 32768]? = some v ∧
      m2.stack.length = m.stack.length := by
  obtain ⟨hp, -⟩ := List.getElem?_eq_some_iff.mp h0
  have e1 : (m.pos + 1) % 65536 = m.pos + 1 := by omega
  have e2 : (m.pos + 1 + 1) % 65536 = m.pos + 2 := by omega
  have e3 : (m.pos + 2 + 1) % 65536 = m.pos + 3 := by omega
  have e4 : (m.pos + 3 + 1) % 65536 = m.pos + 4 := by omega
  have hidx : (d + 32768) % 65536 = d - 32768 := by omega
  have hlt : d - 32768 < m.registers.length := by omega
  simp only [Machine.value, Machine.get_register, List.get?_eq_getElem?] at hv
  refine ⟨{ m with stack := v :: m.stack, pos := m.pos + 2 }, { m with stack := m.stack, pos := m.pos + 4, registers := m.registers.set (d - 32768) v }, ?_, rfl, ?_, ?_, rfl⟩
  · simp [Machine.tick, Machine.match_opcode, Machine.decodeWith, Machine.next,
      Machine.execOp, Machine.value, Machine.get_register, h0, h1, e1, e2, hv]
  · simp [Machine.tick, Machine.match_opcode, Machine.decodeWith, Machine.next,
      Machine.execOp, Machine.set_register, h2, h3, e3, e4, hidx, hlt]
  · simp [List.getElem?_set_self hlt]

/-- Witness for C5: `push 7` then `pop r2`. -/
theorem push_pop_roundtrip_witness :
    (pushPopWitness.memory[pushPopWitness.pos]? = some 2 ∧
     pushPopWitness.value 7 = some 7) ∧
    (∃ m1 m2, pushPopWitness.tick = some (true, m1) ∧
      m1.stack = 7 :: pushPopWitness.stack ∧
      m1.tick = some (true, m2) ∧ m2.registers[32770 - 32768]? = some 7 ∧
      m2.stack.length = pushPopWitness.stack.length) :=
  ⟨⟨by decide, by decide⟩,
   push_pop_roundtrip pushPopWitness 7 32770 7 (by decide) (by decide) (by decide)
     (by decide) (by decide) (by decide) (by decide) (by decide) (by decide)⟩

/-- C6: `call S` pushes the program-counter value pointing immediately after
the call's operand and jumps to resolve(S); an immediate `ret` then resumes
at that pushed position with the stack back at its pre-call size. -/
theorem call_ret_roundtrip (m : Machine) (s t : Nat)
    (hml : m.memory.length ≤ 32768)
    (h0 : m.memory[m.pos]? = some 17)
    (h1 : m.memory[m.pos + 1]? = some s)
    (hv : m.value s = some t)
    (ht : m.memory[t]? = some 18) :
    ∃ m1 m2, m.tick = some (true, m1) ∧ m1.pos = t ∧
      m1.stack = (m.pos + 2) :: m.stack ∧
      m1.tick = some (true, m2) ∧ m2.pos = m.pos + 2 ∧ m2.stack = m.stack := by
  obtain ⟨hp, -⟩ := List.getElem?_eq_some_iff.mp h0
  have e1 : (m.pos + 1) % 65536 = m.pos + 1 := by omega
  have e2 : (m.pos + 1 + 1) % 65536 = m.pos + 2 := by omega
  simp only [Machine.value, Machine.get_register, List.get?_eq_getElem?] at hv
  refine ⟨{ m with stack := (m.pos + 2) :: m.stack, pos := t },
          { m with stack := m.stack, pos := m.pos + 2 }, ?_, rfl, rfl, ?_, rfl, rfl⟩
  · simp [Machine.tick, Machine.match_opcode, Machine.decodeWith, Machine.next,
      Machine.execOp, Machine.value, Machine.get_register, h0, h1, e1, e2, hv]
  · simp [Machine.tick, Machine.match_opcode, Machine.decodeWith, Machine.next,
      Machine.execOp, ht]

/-- Witness for C6: `call 4` with `ret` at address 4. -/
theorem call_ret_roundtrip_witness :
    (callRetWitness.memory.length ≤ 32768 ∧
     callRetWitness.memory[callRetWitness.pos]? = some 17 ∧
     callRetWitness.value 4 = some 4 ∧
     callRetWitness.memory[4]? = some 18) ∧
    (∃ m1 m2, callRetWitness.tick = some (true, m1) ∧ m1.pos = 4 ∧
      m1.stack = (callRetWitness.pos + 2) :: callRetWitness.stack ∧
      m1.tick = some (true, m2) ∧ m2.pos = callRetWitness.pos + 2 ∧
      m2.stack = callRetWitness.stack) :=
  ⟨⟨by decide, by decide, by decide, by decide⟩,
   call_ret_roundtrip callRetWitness 4 4 (by decide) (by decide) (by decide)
     (by decide) (by decide)⟩

/-- C7 counterexample: the claim "for every reachable machine state, resolving
an operand in 32768..32775 never produces a value in 32768..32775" is false.
Loading the five words `[15, 32768, 4, 0, 32770]` into a fresh machine and
executing the `rmem r0, 4` puts the memory word 32770 into register 0, after
which resolving operand 32768 yields 32770 ∈ 32768..32775. -/
theorem resolution_selector_range_cex :
    ¬ ∀ (m : Machine), Reachable m → ∀ w r, 32768 ≤ w → w ≤ 32775 →
        m.value w = some r → ¬ (32768 ≤ r ∧ r ≤ 32775) := by
  intro hP
  have h1 : (128 : Nat) <<< 8 = 32768 := by norm_num [Nat.shiftLeft_eq]
  have h2 : (2 : Nat) ||| 32768 = 32770 := by decide
  have hload : Machine.load Machine.new cexBytes = some (cexLoaded, 10) := by
    rw [Machine.load]
    rw [loadLoop.eq_def]; norm_num [Machine.new, cexBytes, h1, h2]
    rw [loadLoop.eq_def]; norm_num [h1, h2]
    rw [loadLoop.eq_def]; norm_num [h1, h2]
    rw [loadLoop.eq_def]; norm_num [h1, h2]
    rw [loadLoop.eq_def]; norm_num [h1, h2]
    rw [loadLoop.eq_def]; norm_num [cexLoaded, cexMem, Machine.new, h1, h2]
  have htick : cexLoaded.tick = some (true, cexStepped) := by rfl
  have hreach : Reachable cexStepped :=
    Reachable.step cexLoaded true cexStepped
      (Reachable.load cexBytes cexLoaded 10 hload) htick
  have hval : cexStepped.value 32768 = some 32770 := by rfl
  exact hP cexStepped hreach 32768 32770 (by norm_num) (by norm_num) hval
    (by norm_num)

/-- C7 amended: resolution of a register selector returns whatever word the
register holds, so the claim holds exactly when no register holds a value in
32768..32775: for a machine whose registers are all outside that range, no
successful resolution ever produces a value in 32768..32775. -/
theorem resolution_selector_free_registers (m : Machine) (w r : Nat)
    (hreg : ∀ v ∈ m.registers, ¬ (32768 ≤ v ∧ v ≤ 32775))
    (hval : m.value w = some r) : ¬ (32768 ≤ r ∧ r ≤ 32775) := by
  unfold Machine.value Machine.get_register at hval
  simp only [List.get?_eq_getElem?] at hval
  split_ifs at hval with hc1 hc2
  · injection hval with h
    omega
  · exact hreg r (List.getElem?_mem hval)

/-- Witness for the amended C7 at the fresh machine, operand 32770. -/
theorem resolution_selector_free_registers_witness :
    (∀ v ∈ Machine.new.registers, ¬ (32768 ≤ v ∧ v ≤ 32775)) ∧
    Machine.new.value 32770 = some 0 ∧ ¬ (32768 ≤ 0 ∧ 0 ≤ 32775) :=
  ⟨by decide, by rfl,
   resolution_selector_free_registers Machine.new 32770 0 (by decide) (by rfl)⟩

/-- C8: `Machine::new` builds the specified initial state (32768 zero words
of memory, 8 zero registers, empty stack, position 0), but `Machine::default`
as written builds the two-element vectors `[0, 32768]` and `[0, 8]`, so a
machine freshly created through `Default` violates the claimed
memory-length-32768 and eight-zero-registers invariants. -/
theorem new_zeroed_but_default_short :
    Machine.new.memory = List.replicate 32768 0 ∧
    Machine.new.memory.length = 32768 ∧
    Machine.new.registers = List.replicate 8 0 ∧
    Machine.new.registers.length = 8 ∧
    Machine.new.stack = [] ∧ Machine.new.pos = 0 ∧
    Machine.default.memory = [0, 32768] ∧
    Machine.default.memory.length = 2 ∧
    Machine.default.registers = [0, 8] ∧
    Machine.default.registers.length = 2 := by
  refine ⟨rfl, ?_, rfl, ?_, rfl, rfl, rfl, rfl, rfl, rfl⟩ <;>
    simp only [Machine.new, List.length_replicate]

/-- C9: the loader writes each complete little-endian byte pair as one word in
file order and ignores a trailing odd byte, but on a zero-length byte source
the loop bound `buf.len() - 1` underflows and the loader panics (`none`)
instead of reporting 0 bytes with memory untouched. -/
theorem load_empty_panics_and_pairs_little_endian :
    Machine.load Machine.new [] = none ∧
    (∃ m, Machine.load Machine.new [1, 2, 3, 4, 5] = some (m, 5) ∧
      m.memory[0]? = some 513 ∧ m.memory[1]? = some 1027 ∧
      m.memory[2]? = some 0) := by
  constructor
  · simp [Machine.load, loadLoop]
  · have hA : (1 : Nat) ||| 2 <<< 8 = 513 := by decide
    have hB : (3 : Nat) ||| 4 <<< 8 = 1027 := by decide
    refine ⟨{ Machine.new with memory := ((List.replicate 32768 0).set 0 513).set 1 1027 }, ?_, ?_, ?_, ?_⟩
    · rw [Machine.load]
      rw [loadLoop.eq_def]; norm_num [Machine.new, hA, hB]
      rw [loadLoop.eq_def]; norm_num [hA, hB]
      rw [loadLoop.eq_def]; norm_num [Machine.new, hA, hB]
    · rw [List.getElem?_set_ne (by decide),
        List.getElem?_set_self (by rw [List.length_replicate]; omega)]
    · rw [List.getElem?_set_self
        (by rw [List.length_set, List.length_replicate]; omega)]
    · rw [List.getElem?_set_ne (by decide), List.getElem?_set_ne (by decide),
        List.getElem?_replicate]
      norm_num

/-- C10: a step that does not sit on opcode word 16 (`wmem`) leaves every word
of memory unchanged; a step on opcode word 16 changes memory only at the
single address obtained by resolving the instruction's first operand. -/
theorem tick_memory_frame (m : Machine) (b : Bool) (m' : Machine)
    (h : m.tick = some (b, m')) :
    (m.memory[m.pos]? ≠ some 16 → m'.memory = m.memory) ∧
    (m.memory[m.pos]? = some 16 →
      ∃ s1 addr v, m.memory[(m.pos + 1) % 65536]? = some s1 ∧
        m.value s1 = some addr ∧ m'.memory = m.memory.set addr v ∧
        ∀ i, i ≠ addr → m'.memory[i]? = m.memory[i]?) := by
  unfold Machine.tick at h
  try simp only [Option.bind_eq_bind] at h
  rw [Option.bind_eq_some] at h
  obtain ⟨⟨op, m1⟩, hop, hex⟩ := h
  obtain ⟨hfields, hwmem, h16wmem⟩ := Machine.match_opcode_inv m op m1 hop
  obtain ⟨hexne, hexw⟩ := Machine.execOp_memory op m1 b m' hex
  constructor
  · intro hne16
    refine (hexne fun a c hac => hne16 (hwmem a c hac).1).trans hfields.1
  · intro h16
    obtain ⟨a, c, rfl⟩ := h16wmem h16
    obtain ⟨-, hop1⟩ := hwmem a c rfl
    obtain ⟨addr, v, haddr, hmem, hptw⟩ := hexw a c rfl
    refine ⟨a, addr, v, hop1, ?_, ?_, ?_⟩
    · rw [← Machine.value_only_registers m m1 hfields.2.1]
      exact haddr
    · rw [hmem, hfields.1]
    · intro i hi
      rw [hptw i hi, hfields.1]

/-- Witness for C10: one step of a `noop` instruction leaves memory unchanged. -/
theorem tick_memory_frame_witness :
    noopWitness.tick = some (true, noopWitnessStepped) ∧
    ((noopWitness.memory[noopWitness.pos]? ≠ some 16 →
       noopWitnessStepped.memory = noopWitness.memory) ∧
     (noopWitness.memory[noopWitness.pos]? = some 16 →
       ∃ s1 addr v, noopWitness.memory[(noopWitness.pos + 1) % 65536]? = some s1 ∧
         noopWitness.value s1 = some addr ∧
         noopWitnessStepped.memory = noopWitness.memory.set addr v ∧
         ∀ i, i ≠ addr → noopWitnessStepped.memory[i]? = noopWitness.memory[i]?)) :=
  ⟨by decide, tick_memory_frame noopWitness true noopWitnessStepped (by decide)⟩
